import Mathlib

/-!
A shallow embedding of the lawctl policy core (policy types, parser
validation, the decision engine, the gateway decision handling, the
hook adapter walk and the approval-preview truncation), with theorems
checking the specification's claims against it.

Rust byte positions are modelled by character positions (both always sit
at character boundaries in the code paths modelled here), except where
byte-level behaviour is itself under scrutiny (`truncate_preview`), where
UTF-8 byte sizes are modelled explicitly.
-/

set_option maxRecDepth 200000

namespace Lawctl

/-! ## String helpers (Rust `str` semantics)

Implemented over character lists by structural recursion (so theorems
over concrete inputs evaluate inside the kernel).  Rust byte indices are
modelled by character indices; the two agree at every position these
helpers produce. -/

/-- Rust `s.starts_with(pre)`. -/
def rStartsWith (s pre : String) : Bool :=
  pre.toList.isPrefixOf s.toList

/-- Rust `s.ends_with(suf)`. -/
def rEndsWith (s suf : String) : Bool :=
  suf.toList.isSuffixOf s.toList

/-- Rust `s.contains(c)` for a character needle. -/
def rContainsChar (s : String) (c : Char) : Bool :=
  s.toList.contains c

/-- Rust `s.trim()` (ASCII whitespace; the inputs under study contain no
exotic Unicode whitespace). -/
def rTrim (s : String) : String :=
  String.mk (((s.toList.dropWhile Char.isWhitespace).reverse.dropWhile
    Char.isWhitespace).reverse)

/-- Rust `s.to_lowercase()` (ASCII; the alias table is ASCII). -/
def rToLower (s : String) : String :=
  String.mk (s.toList.map Char.toLower)

/-- Rust `s.trim_end_matches('/')`: remove every trailing `/`. -/
def trimEndSlashes (s : String) : String :=
  String.mk ((s.toList.reverse.dropWhile (fun c => c == '/')).reverse)

/-- Rust `s.split(sep)` for a character separator. -/
def splitChar (sep : Char) : List Char → List (List Char)
  | [] => [[]]
  | c :: rest =>
    if c == sep then [] :: splitChar sep rest
    else
      match splitChar sep rest with
      | h :: t => (c :: h) :: t
      | [] => [[c]]

/-- Rust `s.replace("//", "/")`: one left-to-right pass over
non-overlapping occurrences (so `///` becomes `//`, as in Rust). -/
def collapseDoubleSlash : List Char → List Char
  | '/' :: '/' :: rest => '/' :: collapseDoubleSlash rest
  | c :: rest => c :: collapseDoubleSlash rest
  | [] => []

/-- `utils/paths.rs normalize_path`: strip a leading `./`, then replace
every `//` by `/`. -/
def normalize_path (path : String) : String :=
  let path := if rStartsWith path "./" then path.drop 2 else path
  String.mk (collapseDoubleSlash path.toList)

/-- First index at which `part` occurs in `hay` (Rust `str::find` on the
remaining slice). -/
def findSubIdx (hay part : List Char) : Option Nat :=
  if part.isPrefixOf hay then some 0
  else
    match hay with
    | [] => none
    | _ :: tl => (findSubIdx tl part).map (· + 1)

/-! ## Command matching (`utils/paths.rs`) -/

/-- The loop over the middle fragments of `glob_match_string`: each
non-empty fragment must occur, in order, in the remaining text; the
scan position advances past each found occurrence. -/
def middleScan : List Char → List (List Char) → Bool
  | _, [] => true
  | rem, part :: rest =>
    if part.isEmpty then middleScan rem rest
    else
      match findSubIdx rem part with
      | some idx => middleScan (rem.drop (idx + part.length)) rest
      | none => false

/-- `utils/paths.rs glob_match_string`: simple `*`-wildcard matching for
command strings. Split the pattern by `*`; the first fragment must start
the text, the last must end it, middle fragments occur in order. -/
def glob_match_string (text pattern : String) : Bool :=
  match splitChar '*' pattern.toList with
  | [] => text == pattern
  | [_] => text == pattern
  | p0 :: r1 :: rest =>
    let tailParts := r1 :: rest
    let startOk := p0.isEmpty || p0.isPrefixOf text.toList
    let last := tailParts.getLast (List.cons_ne_nil _ _)
    let endOk := last.isEmpty || last.isSuffixOf text.toList
    let remAfterFirst := text.toList.drop p0.length
    startOk && endOk && middleScan remAfterFirst tailParts.dropLast

/-- `utils/paths.rs command_matches`: true when the trimmed command
matches any trimmed pattern. -/
def command_matches (command : String) (patterns : List String) : Bool :=
  patterns.any (fun pattern => glob_match_string (rTrim command) (rTrim pattern))

/-! ## Glob matching model (the `globset` dependency)

`CompiledMatcher` delegates to the external `globset` crate, which is not
part of `src/`.  The engine below is therefore parameterised over the
compiled-glob semantics `gm : String → String → Bool` (pattern, path);
universal theorems hold for every `gm`.  For concrete evaluations we use
the following model of globset's default matcher (`Glob::new(p)
.compile_matcher().is_match(path)`): `*` and `?` may match any character
including `/` (the default builder does not set `literal_separator`);
`**` inside a pattern is therefore equivalent to `*` (so a trailing
`/tmp/**` matches `/tmp/x` but neither `/tmp` nor `/tmpfoo`), and a
leading `**/` may additionally consume any number of whole leading
components.  Character classes and alternates are not modelled (no
pattern in this development uses them). -/

inductive GTok where
  | lit (c : Char)
  | star
  | q
deriving DecidableEq

/-- Tokenise a glob pattern; `**` collapses to `*` (see model note). -/
def globTokens : List Char → List GTok
  | [] => []
  | '*' :: '*' :: rest => .star :: globTokens rest
  | '*' :: rest => .star :: globTokens rest
  | '?' :: rest => .q :: globTokens rest
  | c :: rest => .lit c :: globTokens rest

/-- Match a token list against a character list; `star` may absorb any
run of characters. -/
def tokMatch : List GTok → List Char → Bool
  | [], xs => xs.isEmpty
  | .lit _ :: _, [] => false
  | .lit c :: ts, x :: xs => c == x && tokMatch ts xs
  | .q :: _, [] => false
  | .q :: ts, _ :: xs => tokMatch ts xs
  | .star :: ts, xs => xs.tails.any (fun suf => tokMatch ts suf)

/-- All suffixes of `cs` that start right after a `/`. -/
def afterSlashSuffixes : List Char → List (List Char)
  | [] => []
  | c :: rest =>
    (if c == '/' then [rest] else []) ++ afterSlashSuffixes rest

/-- The globset-model matcher (see the model note above). -/
def globsetMatch (pattern path : String) : Bool :=
  if rStartsWith pattern "**/" then
    let ts := globTokens (pattern.drop 3).toList
    tokMatch ts path.toList
      || (afterSlashSuffixes path.toList).any (fun suf => tokMatch ts suf)
  else
    tokMatch (globTokens pattern.toList) path.toList

/-- Model of `globset::Glob::new` validity: a pattern compiles unless it
has an unclosed character class or a dangling escape.  The flag is true
while scanning inside a class. -/
def globScan : Bool → List Char → Bool
  | false, [] => true
  | true, [] => false
  | false, '[' :: rest => globScan true rest
  | false, '\\' :: [] => false
  | false, '\\' :: _ :: rest => globScan false rest
  | false, _ :: rest => globScan false rest
  | true, ']' :: rest => globScan false rest
  | true, _ :: rest => globScan true rest

/-- `Glob::new(p)` succeeds (model; see `globScan`). -/
def globNewOk (p : String) : Bool := globScan false p.toList

/-! ## Policy data model (`policy/types.rs`) -/

/-- `Action`: the closed set of side-effecting operations. -/
inductive Action where
  | write
  | delete
  | runCmd
  | gitPush
  | network
deriving DecidableEq

/-- `impl fmt::Display for Action`. -/
def Action.display : Action → String
  | .write => "write"
  | .delete => "delete"
  | .runCmd => "run_cmd"
  | .gitPush => "git_push"
  | .network => "network"

/-- `Action::from_str_loose`: alias table, case-insensitive after trim.
(Rust lowercases per Unicode; ASCII lowering is adequate for the alias
table, whose entries are ASCII.) -/
def Action.from_str_loose (s : String) : Option Action :=
  let t := rTrim (rToLower s)
  if t == "write" || t == "write_file" || t == "file_write" then some .write
  else if t == "delete" || t == "delete_file" || t == "file_delete" || t == "rm" then
    some .delete
  else if t == "run_cmd" || t == "shell" || t == "exec" || t == "command" || t == "cmd" then
    some .runCmd
  else if t == "git_push" || t == "push" || t == "git" then some .gitPush
  else if t == "network" || t == "net" || t == "http" || t == "fetch" then some .network
  else none

/-- `Action::is_destructive`. -/
def Action.is_destructive : Action → Bool
  | .delete => true
  | .gitPush => true
  | .runCmd => true
  | _ => false

/-- `Conditions`: the AND-combined narrowing predicate of a rule. -/
structure Conditions where
  if_path_matches : List String := []
  unless_path : List String := []
  if_matches : List String := []
  max_diff_lines : Option Nat := none
  unless_domain : List String := []
deriving DecidableEq

/-- `Conditions::is_empty`. -/
def Conditions.is_empty (c : Conditions) : Bool :=
  c.if_path_matches.isEmpty && c.unless_path.isEmpty && c.if_matches.isEmpty
    && c.max_diff_lines.isNone && c.unless_domain.isEmpty

/-- `Rule`: deny / allow / require-approval, each with an action and
conditions. -/
inductive Rule where
  | deny (action : Action) (conditions : Conditions) (reason : Option String)
  | allow (action : Action) (conditions : Conditions)
  | requireApproval (action : Action) (conditions : Conditions) (prompt : Option String)
deriving DecidableEq

/-- `Rule::action`. -/
def Rule.action : Rule → Action
  | .deny a _ _ => a
  | .allow a _ => a
  | .requireApproval a _ _ => a

/-- `Rule::conditions`. -/
def Rule.conditions : Rule → Conditions
  | .deny _ c _ => c
  | .allow _ c => c
  | .requireApproval _ c _ => c

/-- Whether the rule is a `Deny` (the `matches!(rule, Rule::Deny{..})`
test in `evaluate`). -/
def Rule.isDeny : Rule → Bool
  | .deny _ _ _ => true
  | _ => false

/-- `Rule::describe`: the stable human-readable description. -/
def Rule.describe : Rule → String
  | .deny a c _ =>
    let d0 := "deny:" ++ a.display
    let d1 :=
      if c.if_path_matches.isEmpty then d0
      else d0 ++ ":if_path_matches:" ++ String.intercalate "," c.if_path_matches
    let d2 :=
      if c.unless_path.isEmpty then d1
      else d1 ++ ":unless_path:" ++ String.intercalate "," c.unless_path
    if c.if_matches.isEmpty then d2
    else d2 ++ ":if_matches:" ++ String.intercalate "," c.if_matches
  | .allow a c =>
    let d0 := "allow:" ++ a.display
    let d1 :=
      if c.if_path_matches.isEmpty then d0
      else d0 ++ ":if_path_matches:" ++ String.intercalate "," c.if_path_matches
    match c.max_diff_lines with
    | some n => d1 ++ ":max_diff_lines:" ++ toString n
    | none => d1
  | .requireApproval a _ _ => "require_approval:" ++ a.display

/-- `Policy`: a named ordered rule list. -/
structure Policy where
  law : String
  description : Option String := none
  rules : List Rule
deriving DecidableEq

/-- `Decision`: the engine's verdict. -/
inductive Decision where
  | allowed (matched_rule : Option String)
  | denied (reason : String) (matched_rule : Option String)
  | requiresApproval (reason : String) (matched_rule : Option String)
deriving DecidableEq

/-- `ActionContext`: the evaluation input. -/
structure ActionContext where
  target : String
  diff : Option String := none
  command : Option String := none
  domain : Option String := none
  diff_lines : Option Nat := none
deriving DecidableEq

/-! ## Policy engine (`policy/engine.rs`) -/

/-- `ConditionResult`: the tri-state outcome of `check_conditions`. -/
inductive ConditionResult where
  | matched
  | exceptionMatched
  | notMatched
deriving DecidableEq

/-- `CompiledRule`: a rule with its pre-built matchers.  A matcher is
modelled by its pattern list; `CompiledMatcher::matches` is
`matcherMatches gm`. -/
structure CompiledRule where
  rule : Rule
  path_matcher : Option (List String)
  unless_path_matcher : Option (List String)
deriving DecidableEq

/-- `CompiledMatcher::matches`: true when any compiled pattern matches. -/
def matcherMatches (gm : String → String → Bool) (pats : List String) (path : String) : Bool :=
  pats.any (fun p => gm p path)

/-- The `unless_path` expansion performed in `PolicyEngine::new`: entries
with a glob meta-character are kept verbatim; a simple path `P` becomes
the pair `P` (trailing slashes trimmed) and `P/**`. -/
def expandUnlessPath (ps : List String) : List String :=
  ps.flatMap (fun p =>
    let isGlob := rContainsChar p '*' || rContainsChar p '?' || rContainsChar p '['
    if isGlob then [p]
    else
      let trimmed := trimEndSlashes p
      [trimmed, trimmed ++ "/**"])

/-- The per-rule compilation step of `PolicyEngine::new`.  (Pattern
compilation failure is a load-time concern checked by the parser; the
matcher semantics itself is the abstract parameter `gm`.) -/
def compileRule (r : Rule) : CompiledRule :=
  let c := r.conditions
  { rule := r
    path_matcher := if c.if_path_matches.isEmpty then none else some c.if_path_matches
    unless_path_matcher :=
      if c.unless_path.isEmpty then none else some (expandUnlessPath c.unless_path) }

/-- `PolicyEngine`: the original policy plus the compiled rules. -/
structure PolicyEngine where
  policy : Policy
  compiled_rules : List CompiledRule
deriving DecidableEq

/-- `PolicyEngine::new`. -/
def PolicyEngine.new (p : Policy) : PolicyEngine :=
  { policy := p, compiled_rules := p.rules.map compileRule }

/-- `PolicyEngine::check_conditions`: the tri-state condition check, in
the source's fixed order of early returns. -/
def check_conditions (gm : String → String → Bool) (cr : CompiledRule) (action : Action)
    (target : String) (ctx : ActionContext) : ConditionResult :=
  let conditions := cr.rule.conditions
  if conditions.is_empty then .matched
  else if (match cr.unless_path_matcher with
           | some pats => matcherMatches gm pats target
           | none => false) then .exceptionMatched
  else if (!conditions.unless_path.isEmpty && cr.unless_path_matcher.isNone
           && conditions.unless_path.any (fun e => rStartsWith target e)) then
    .exceptionMatched
  else if (!conditions.unless_domain.isEmpty
           && (match ctx.domain with
               | some d => conditions.unless_domain.any (fun e => rEndsWith d e)
               | none => false)) then .exceptionMatched
  else if (match cr.path_matcher with
           | some pats => !matcherMatches gm pats target
           | none => false) then .notMatched
  else if (!conditions.if_matches.isEmpty && action == .runCmd
           && (match ctx.command with
               | some cmd => !command_matches cmd conditions.if_matches
               | none => true)) then .notMatched
  else if (match conditions.max_diff_lines, ctx.diff_lines with
           | some maxL, some actual => decide (actual > maxL)
           | _, _ => false) then .notMatched
  else .matched

/-- `PolicyEngine::rule_to_decision`: verdict mapping for a `Matched`
rule; `law` is the policy name used in synthesised reasons. -/
def rule_to_decision (law : String) (rule : Rule) : Decision :=
  match rule with
  | .deny action conditions reason =>
    let default_reason :=
      if !conditions.if_path_matches.isEmpty then
        "Policy '" ++ law ++ "' denies " ++ action.display ++ " for paths matching: "
          ++ String.intercalate ", " conditions.if_path_matches
      else if !conditions.if_matches.isEmpty then
        "Policy '" ++ law ++ "' denies " ++ action.display ++ " matching dangerous patterns"
      else
        "Policy '" ++ law ++ "' denies " ++ action.display ++ " (no exceptions matched)"
    .denied (reason.getD default_reason) (some rule.describe)
  | .allow _ _ => .allowed (some rule.describe)
  | .requireApproval action _ prompt =>
    let default_reason := "Policy '" ++ law ++ "' requires approval for " ++ action.display
    .requiresApproval (prompt.getD default_reason) (some rule.describe)

/-- `PolicyEngine::default_decision`: destructive actions deny by
default, the rest allow. -/
def default_decision (action : Action) : Decision :=
  if action.is_destructive then
    .denied ("No explicit rule for " ++ action.display
      ++ " — destructive actions are denied by default") none
  else .allowed none

/-- The rule loop of `PolicyEngine::evaluate`: first resolving rule wins;
`none` when no rule resolves the query. -/
def evalRules (gm : String → String → Bool) (law : String) (action : Action)
    (target : String) (ctx : ActionContext) : List CompiledRule → Option Decision
  | [] => none
  | cr :: rest =>
    if cr.rule.action ≠ action then evalRules gm law action target ctx rest
    else
      match check_conditions gm cr action target ctx with
      | .matched => some (rule_to_decision law cr.rule)
      | .exceptionMatched =>
        if cr.rule.isDeny then
          some (.allowed (some (cr.rule.describe ++ " (exception)")))
        else evalRules gm law action target ctx rest
      | .notMatched => evalRules gm law action target ctx rest

/-- `PolicyEngine::evaluate`: normalise the target, walk the rules,
apply the default when nothing resolves. -/
def evaluate (gm : String → String → Bool) (eng : PolicyEngine) (action : Action)
    (ctx : ActionContext) : Decision :=
  let normalized_target := normalize_path ctx.target
  match evalRules gm eng.policy.law action normalized_target ctx eng.compiled_rules with
  | some d => d
  | none => default_decision action

/-! ## Policy parser (`policy/parser.rs`)

The YAML surface syntax is handled by the external serde machinery; the
embedding starts at the deserialised document (`RawPolicy`), which is
where every validation rule of `parse_policy_str` lives. -/

/-- `StringOrVec`: a sequence field given either as a bare string or as
a list. -/
inductive StringOrVec where
  | single (s : String)
  | multiple (v : List String)
deriving DecidableEq

/-- `StringOrVec::into_vec`. -/
def StringOrVec.into_vec : StringOrVec → List String
  | .single s => [s]
  | .multiple v => v

/-- `RawRule`: a rule as deserialised from the document; every field is
optional with a `None`/empty default. -/
structure RawRule where
  deny : Option String := none
  allow : Option String := none
  require_approval : Option String := none
  if_path_matches : Option StringOrVec := none
  unless_path : Option StringOrVec := none
  if_matches : Option StringOrVec := none
  max_diff_lines : Option Nat := none
  unless_domain : Option StringOrVec := none
  reason : Option String := none
  prompt : Option String := none
deriving DecidableEq

/-- `RawPolicy`: the deserialised document. -/
structure RawPolicy where
  law : String
  description : Option String := none
  rules : List RawRule
deriving DecidableEq

/-- `validate_conditions_for_action`: per-action condition sanity and
glob validity checks (glob validity per the `globNewOk` model). -/
def validate_conditions_for_action (action : Action) (conditions : Conditions)
    (index : Nat) : Except String Unit :=
  let actionCheck : Except String Unit :=
    match action with
    | .runCmd =>
      if !conditions.if_path_matches.isEmpty || !conditions.unless_path.isEmpty then
        .error ("Rule " ++ toString index
          ++ ": 'if_path_matches' and 'unless_path' don't apply to run_cmd actions. "
          ++ "Use 'if_matches' for command pattern matching.")
      else .ok ()
    | .gitPush =>
      if !conditions.if_matches.isEmpty then
        .error ("Rule " ++ toString index
          ++ ": 'if_matches' doesn't apply to git_push. "
          ++ "Use 'if_path_matches' for branch patterns.")
      else .ok ()
    | .network =>
      if !conditions.if_path_matches.isEmpty || !conditions.unless_path.isEmpty then
        .error ("Rule " ++ toString index
          ++ ": 'if_path_matches' and 'unless_path' don't apply to network actions. "
          ++ "Use 'unless_domain' for domain allowlisting.")
      else .ok ()
    | _ =>
      if !conditions.unless_domain.isEmpty then
        .error ("Rule " ++ toString index ++ ": 'unless_domain' only applies to network actions.")
      else .ok ()
  match actionCheck with
  | .error e => .error e
  | .ok _ =>
    match conditions.if_path_matches.find? (fun p => !globNewOk p) with
    | some pattern =>
      .error ("Rule " ++ toString index ++ ": invalid glob pattern '" ++ pattern ++ "'")
    | none =>
      match conditions.unless_path.find? (fun p =>
          (rContainsChar p '*' || rContainsChar p '?' || rContainsChar p '[')
            && !globNewOk p) with
      | some pattern =>
        .error ("Rule " ++ toString index ++ ": invalid glob pattern '" ++ pattern ++ "'")
      | none => .ok ()

/-- The `Conditions` value `convert_rule` builds from the raw fields
(bare strings as singletons, absent fields as empty). -/
def RawRule.conditionsOf (raw : RawRule) : Conditions :=
  { if_path_matches := (raw.if_path_matches.map StringOrVec.into_vec).getD []
    unless_path := (raw.unless_path.map StringOrVec.into_vec).getD []
    if_matches := (raw.if_matches.map StringOrVec.into_vec).getD []
    max_diff_lines := raw.max_diff_lines
    unless_domain := (raw.unless_domain.map StringOrVec.into_vec).getD [] }

/-- `convert_rule`: exactly one verdict key, a known action, and valid
conditions for that action. -/
def convert_rule (raw : RawRule) (index : Nat) : Except String Rule :=
  let set_count :=
    [raw.deny.isSome, raw.allow.isSome, raw.require_approval.isSome].count true
  if set_count == 0 then
    .error ("Rule " ++ toString index ++ " must specify one of: deny, allow, or require_approval")
  else if set_count > 1 then
    .error ("Rule " ++ toString index
      ++ " specifies multiple rule types (deny/allow/require_approval) — pick one")
  else
    let conditions := raw.conditionsOf
    match raw.deny with
    | some action_str =>
      match Action.from_str_loose action_str with
      | none => .error ("Unknown action '" ++ action_str ++ "' in deny rule")
      | some action =>
        match validate_conditions_for_action action conditions index with
        | .error e => .error e
        | .ok _ => .ok (.deny action conditions raw.reason)
    | none =>
      match raw.allow with
      | some action_str =>
        match Action.from_str_loose action_str with
        | none => .error ("Unknown action '" ++ action_str ++ "' in allow rule")
        | some action =>
          match validate_conditions_for_action action conditions index with
          | .error e => .error e
          | .ok _ => .ok (.allow action conditions)
      | none =>
        match raw.require_approval with
        | some action_str =>
          match Action.from_str_loose action_str with
          | none => .error ("Unknown action '" ++ action_str ++ "' in require_approval rule")
          | some action =>
            match validate_conditions_for_action action conditions index with
            | .error e => .error e
            | .ok _ => .ok (.requireApproval action conditions raw.prompt)
        | none => .error "unreachable"

/-- The indexed conversion loop of `parse_policy_str`, with the
`Invalid rule at position i` context wrapper. -/
def convert_rules (i : Nat) : List RawRule → Except String (List Rule)
  | [] => .ok []
  | raw :: rest =>
    match convert_rule raw i with
    | .error e =>
      .error ("Invalid rule at position " ++ toString i ++ " (0-indexed): " ++ e)
    | .ok rule =>
      match convert_rules (i + 1) rest with
      | .error e => .error e
      | .ok rules => .ok (rule :: rules)

/-- `parse_policy_str`, from the deserialised document onward: non-empty
law name, all rules convertible, at least one rule. -/
def parse_policy_raw (raw : RawPolicy) : Except String Policy :=
  if (rTrim raw.law).toList.isEmpty then
    .error "Policy must have a non-empty 'law' name"
  else
    match convert_rules 0 raw.rules with
    | .error e => .error e
    | .ok rules =>
      if rules.isEmpty then .error "Policy must have at least one rule"
      else .ok { law := raw.law, description := raw.description, rules := rules }

/-! ## Serialisation of a `Policy` (the serde derive on `policy/types.rs`)

`Policy`/`Rule` derive `Serialize` with internal tagging
(`#[serde(tag = "type")]`): a serialised rule is a mapping with keys
`type`, `action`, `conditions` and, when present, `reason` or `prompt`.
Re-deserialising that mapping as a `RawRule` (whose recognised keys are
`deny`/`allow`/`require_approval`, the five flat condition keys, `reason`
and `prompt`, unknown keys being ignored and absent ones defaulting)
yields the following raw rule — only `reason`/`prompt` survive, every
verdict key is `None`. -/
def rawRuleOfSerialized (r : Rule) : RawRule :=
  { reason := match r with | .deny _ _ rs => rs | _ => none
    prompt := match r with | .requireApproval _ _ p => p | _ => none }

/-- The document obtained by serialising a `Policy` and re-deserialising
it for the parser (see `rawRuleOfSerialized`). -/
def rawPolicyOfSerialized (p : Policy) : RawPolicy :=
  { law := p.law, description := p.description, rules := p.rules.map rawRuleOfSerialized }

/-! ## Gateway decision handling (`gateway/server.rs`, `gateway/protocol.rs`,
`approval/types.rs`) -/

/-- `GatewayResponse` (struct of `protocol.rs`). -/
structure GatewayResponse where
  request_id : String
  allowed : Bool
  error : Option String := none
  result : Option String := none
deriving DecidableEq

/-- `GatewayResponse::allowed`. -/
def GatewayResponse.mkAllowed (request_id result : String) : GatewayResponse :=
  { request_id := request_id, allowed := true, error := none, result := some result }

/-- `GatewayResponse::denied`. -/
def GatewayResponse.mkDenied (request_id reason : String) : GatewayResponse :=
  { request_id := request_id, allowed := false, error := some reason, result := none }

/-- `GatewayResponse::internal_error`. -/
def GatewayResponse.internal_error (request_id e : String) : GatewayResponse :=
  { request_id := request_id, allowed := false
    error := some ("Internal error: " ++ e), result := none }

/-- `ApprovalResponse` (`approval/types.rs`). -/
structure ApprovalResponse where
  approved : Bool
  approved_by : Option String := none
deriving DecidableEq

/-- The decision dispatch of `process_request`: from the engine decision
to `(response, final audit decision, approved_by)`.  The two effectful
calls are passed in as their results: `execResult` models
`execute_action` and `brokerResult` models
`approval_handler.request_approval`. -/
def process_decision (request_id : String) (decision : Decision)
    (execResult : Except String String)
    (brokerResult : Except String ApprovalResponse) :
    GatewayResponse × Decision × Option String :=
  match decision with
  | .allowed _ =>
    match execResult with
    | .ok output => (.mkAllowed request_id output, decision, none)
    | .error e => (.internal_error request_id e, decision, none)
  | .denied reason _ => (.mkDenied request_id reason, decision, none)
  | .requiresApproval _ _ =>
    match brokerResult with
    | .ok approval_response =>
      if approval_response.approved then
        match execResult with
        | .ok output =>
          (.mkAllowed request_id output,
           .allowed (some "approved by human"),
           some (approval_response.approved_by.getD "terminal"))
        | .error e => (.internal_error request_id e, decision, none)
      else
        (.mkDenied request_id "Denied by human reviewer",
         .denied "Denied by human reviewer" (some "human review"),
         none)
    | .error e =>
      (.mkDenied request_id ("Approval flow error: " ++ e),
       .denied ("Approval flow error: " ++ e) none,
       none)

/-! ## Payload preview truncation (`gateway/server.rs truncate_preview`)

The Rust code tests `s.len() <= max_len` in bytes and slices
`&s[..max_len]` by bytes; slicing off a character boundary panics.  The
byte-level behaviour is modelled exactly: `none` models the panic. -/

/-- Rust `str::len`: the UTF-8 byte length. -/
def rustByteLen (s : String) : Nat :=
  s.toList.foldl (fun n c => n + c.utf8Size) 0

/-- Rust `&s[..n]` (char-list form): the characters filling exactly the
first `n` bytes, or `none` (panic) when `n` is not a character
boundary. -/
def byteSliceTo : List Char → Nat → Option (List Char)
  | _, 0 => some []
  | [], _ + 1 => none
  | c :: cs, n + 1 =>
    if c.utf8Size ≤ n + 1 then (byteSliceTo cs (n + 1 - c.utf8Size)).map (c :: ·)
    else none

/-- `truncate_preview`: short payloads pass through; longer ones are
byte-sliced at `max_len` (panicking — `none` — off a char boundary) and
annotated with an ellipsis and the total byte length. -/
def truncate_preview (s : String) (max_len : Nat) : Option String :=
  if rustByteLen s ≤ max_len then some s
  else
    (byteSliceTo s.toList max_len).map (fun cs =>
      String.mk cs ++ "... (" ++ toString (rustByteLen s) ++ " chars total)")

/-! ## Hook adapter walk (`hook/main.rs`) -/

/-- `prompt_native_approval`: on macOS the native dialog's answer, on
any other platform no prompt is available and the answer is `false`. -/
def prompt_native_approval (is_macos : Bool) (dialogApproves : Bool) : Bool :=
  if is_macos then dialogApproves else false

/-- The query walk of the hook's `main`: the accumulator is the
`user_approved` latch.  Once the latch is set the loop breaks (remaining
queries are skipped) and the process exits 0.  The result is the process
exit code.  `promptFn` models `prompt_native_approval` for the query
being asked about. -/
def hookWalk (gm : String → String → Bool) (eng : PolicyEngine)
    (promptFn : Action × ActionContext → Bool) :
    List (Action × ActionContext) → Bool → Nat
  | [], _ => 0
  | q :: rest, user_approved =>
    if user_approved then 0
    else
      match evaluate gm eng q.1 q.2 with
      | .denied _ _ => 2
      | .requiresApproval _ _ =>
        if promptFn q then hookWalk gm eng promptFn rest true else 2
      | .allowed _ => hookWalk gm eng promptFn rest user_approved

/-- The verdict action string of a raw rule: `deny`, else `allow`, else
`require_approval` (the branch order of `convert_rule`). -/
def RawRule.verdictStr (raw : RawRule) : Option String :=
  match raw.deny with
  | some s => some s
  | none =>
    match raw.allow with
    | some s => some s
    | none => raw.require_approval

/-- Following the specification's enumeration: the conditions a rule may
carry given its action — no path conditions on `run_cmd` or `network`
rules, no `if_matches` on `git_push`, no `unless_domain` on `write` or
`delete`, every `if_path_matches` glob well-formed, and no
meta-character-containing `unless_path` entry with a malformed glob. -/
def specCondsOk (a : Action) (c : Conditions) : Bool :=
  (match a with
   | .runCmd => c.if_path_matches.isEmpty && c.unless_path.isEmpty
   | .gitPush => c.if_matches.isEmpty
   | .network => c.if_path_matches.isEmpty && c.unless_path.isEmpty
   | _ => c.unless_domain.isEmpty)
  && c.if_path_matches.all globNewOk
  && c.unless_path.all (fun p =>
      !((rContainsChar p '*' || rContainsChar p '?' || rContainsChar p '[')
        && !globNewOk p))

/-- Following the specification's enumeration: a raw rule is well formed
when it has exactly one verdict key, naming a known action, with
conditions fit for that action. -/
def specRuleOk (raw : RawRule) : Bool :=
  ([raw.deny.isSome, raw.allow.isSome, raw.require_approval.isSome].count true == 1)
  && (match raw.verdictStr with
      | none => false
      | some s =>
        match Action.from_str_loose s with
        | none => false
        | some a => specCondsOk a raw.conditionsOf)

/-- `Rule` with its `if_matches` condition emptied. -/
def eraseIfMatches : Rule → Rule
  | .deny a c rs => .deny a { c with if_matches := [] } rs
  | .allow a c => .allow a { c with if_matches := [] }
  | .requireApproval a c p => .requireApproval a { c with if_matches := [] } p


/-! ## Lemmas about the rule loop -/

/-- Compilation keeps the original rule. -/
@[simp] theorem compileRule_rule (r : Rule) : (compileRule r).rule = r := rfl

/-- The rule loop distributes over list append: the left block is
consulted first, the right block only when the left resolves nothing. -/
theorem evalRules_append (gm : String → String → Bool) (law : String) (A : Action)
    (t : String) (ctx : ActionContext) (xs ys : List CompiledRule) :
    evalRules gm law A t ctx (xs ++ ys) =
      match evalRules gm law A t ctx xs with
      | some d => some d
      | none => evalRules gm law A t ctx ys := by
  induction xs with
  | nil => simp [evalRules]
  | cons cr rest ih =>
    by_cases h : cr.rule.action ≠ A
    · simpa [evalRules, h] using ih
    · simp only [List.cons_append, evalRules, if_neg h]
      cases hc : check_conditions gm cr A t ctx with
      | matched => simp
      | exceptionMatched =>
        cases hd : cr.rule.isDeny <;> simp [hd, ih]
      | notMatched => simpa using ih

/-- If no rule of the queried action in the block yields `Matched`, and
no `Deny` rule of that action yields `ExceptionMatched`, the loop
resolves nothing over that block. -/
theorem evalRules_eq_none (gm : String → String → Bool) (law : String) (A : Action)
    (t : String) (ctx : ActionContext) (crs : List CompiledRule)
    (h : ∀ cr ∈ crs, cr.rule.action = A →
      check_conditions gm cr A t ctx ≠ .matched ∧
      (cr.rule.isDeny = true → check_conditions gm cr A t ctx ≠ .exceptionMatched)) :
    evalRules gm law A t ctx crs = none := by
  induction crs with
  | nil => rfl
  | cons cr rest ih =>
    have hrest : evalRules gm law A t ctx rest = none :=
      ih (fun c hc => h c (List.mem_cons_of_mem _ hc))
    by_cases ha : cr.rule.action ≠ A
    · simpa [evalRules, ha] using hrest
    · have ha' : cr.rule.action = A := not_not.mp ha
      have hcr := h cr (List.mem_cons_self _ _) ha'
      simp only [evalRules, if_neg ha]
      cases hc : check_conditions gm cr A t ctx with
      | matched => exact absurd hc hcr.1
      | exceptionMatched =>
        cases hd : cr.rule.isDeny with
        | true => exact absurd hc (hcr.2 hd)
        | false => simpa [hd] using hrest
      | notMatched => simpa using hrest

/-! ## Claim theorems -/

/-- C1: when evaluation reaches a `Deny` rule with a non-empty
`unless_path` or `unless_domain` (no earlier rule resolved the query)
and its condition check yields `ExceptionMatched` for the normalised
target, `evaluate` returns `Allowed` with the rule's description
followed by " (exception)"; for `Allow` and `RequireApproval` rules an
`ExceptionMatched` outcome continues with the next rule, exactly like
`NotMatched`. -/
theorem unless_exception_implicit_allow (gm : String → String → Bool) (p : Policy)
    (A : Action) (ctx : ActionContext) :
    (∀ pre r post, p.rules = pre ++ r :: post → r.isDeny = true →
      (r.conditions.unless_path ≠ [] ∨ r.conditions.unless_domain ≠ []) →
      r.action = A →
      evalRules gm p.law A (normalize_path ctx.target) ctx (pre.map compileRule) = none →
      check_conditions gm (compileRule r) A (normalize_path ctx.target) ctx
        = .exceptionMatched →
      evaluate gm (PolicyEngine.new p) A ctx
        = .allowed (some (r.describe ++ " (exception)")))
    ∧ (∀ law t r rest, r.isDeny = false →
      check_conditions gm (compileRule r) A t ctx = .exceptionMatched →
      evalRules gm law A t ctx (compileRule r :: rest)
        = evalRules gm law A t ctx rest) := by
  constructor
  · intro pre r post hrules hdeny _ haction hpre hcheck
    simp only [evaluate, PolicyEngine.new, hrules, List.map_append, List.map_cons,
      evalRules_append, hpre]
    simp [evalRules, haction, hcheck, hdeny]
  · intro law t r rest hnotdeny hcheck
    by_cases ha : r.action ≠ A
    · simp [evalRules, ha]
    · simp [evalRules, ha, hcheck, hnotdeny]

/-- C1 witness: the `deny delete unless_path /tmp` policy on target
`/tmp/scratch.txt` yields the implicit allow with the exception-marked
rule description. -/
theorem unless_exception_implicit_allow_witness :
    evaluate globsetMatch
      (PolicyEngine.new
        { law := "test", rules := [.deny .delete { unless_path := ["/tmp"] } none] })
      .delete { target := "/tmp/scratch.txt" }
      = .allowed (some "deny:delete:unless_path:/tmp (exception)") := by
  have h := (unless_exception_implicit_allow globsetMatch
    { law := "test", rules := [.deny .delete { unless_path := ["/tmp"] } none] }
    .delete { target := "/tmp/scratch.txt" }).1
    [] (.deny .delete { unless_path := ["/tmp"] } none) []
    rfl rfl (Or.inl (by decide)) rfl rfl (by decide)
  simpa using h

/-- C2: when no rule resolves the query (no rule of the queried action
checks `Matched`, no `Deny` rule of it checks `ExceptionMatched`),
`evaluate` falls back to the default: `Denied` with no matched rule and
the destructive-default reason for `Delete`, `RunCmd` and `GitPush`;
`Allowed` with no matched rule for `Write` and `Network`. -/
theorem default_decision_when_no_rule_resolves (gm : String → String → Bool)
    (p : Policy) (A : Action) (ctx : ActionContext)
    (h : ∀ r ∈ p.rules, r.action = A →
      check_conditions gm (compileRule r) A (normalize_path ctx.target) ctx ≠ .matched ∧
      (r.isDeny = true →
        check_conditions gm (compileRule r) A (normalize_path ctx.target) ctx
          ≠ .exceptionMatched)) :
    ((A = .delete ∨ A = .runCmd ∨ A = .gitPush) →
      evaluate gm (PolicyEngine.new p) A ctx
        = .denied ("No explicit rule for " ++ A.display
            ++ " — destructive actions are denied by default") none)
    ∧ ((A = .write ∨ A = .network) →
      evaluate gm (PolicyEngine.new p) A ctx = .allowed none) := by
  have hnone : evalRules gm p.law A (normalize_path ctx.target) ctx
      (p.rules.map compileRule) = none := by
    apply evalRules_eq_none
    intro cr hcr hact
    rcases List.mem_map.mp hcr with ⟨r, hr, rfl⟩
    have hact' : r.action = A := by simpa [compileRule] using hact
    have := h r hr hact'
    constructor
    · exact this.1
    · intro hd
      exact this.2 (by simpa [compileRule] using hd)
  constructor
  · rintro (rfl | rfl | rfl) <;>
      simp [evaluate, PolicyEngine.new, hnone, default_decision, Action.is_destructive]
  · rintro (rfl | rfl) <;>
      simp [evaluate, PolicyEngine.new, hnone, default_decision, Action.is_destructive]

/-- C2 witness: with only a write rule, `Delete` (destructive) is denied
by default; with only a delete rule, `Write` (non-destructive) is
allowed by default. -/
theorem default_decision_when_no_rule_resolves_witness :
    evaluate globsetMatch
        (PolicyEngine.new
          { law := "test", rules := [.allow .write { if_path_matches := ["src/**"] }] })
        .delete { target := "/any/path" }
      = .denied "No explicit rule for delete — destructive actions are denied by default"
          none
    ∧ evaluate globsetMatch
        (PolicyEngine.new { law := "test", rules := [.deny .delete {} none] })
        .write { target := "some/random/path.txt" }
      = .allowed none := by
  constructor
  · exact (default_decision_when_no_rule_resolves globsetMatch
      { law := "test", rules := [.allow .write { if_path_matches := ["src/**"] }] }
      .delete { target := "/any/path" } (by decide)).1 (Or.inl rfl)
  · exact (default_decision_when_no_rule_resolves globsetMatch
      { law := "test", rules := [.deny .delete {} none] }
      .write { target := "some/random/path.txt" } (by decide)).2 (Or.inl rfl)

/-- C3: first-match-wins — when the rules at two positions would both
check `Matched` for the query and nothing before the earlier one
resolves the query (no earlier match, no earlier deny-exception), the
result of `evaluate` is the verdict of the earlier rule. -/
theorem first_match_wins (gm : String → String → Bool) (p : Policy) (A : Action)
    (ctx : ActionContext) (pre mid post : List Rule) (ri rj : Rule)
    (hrules : p.rules = pre ++ ri :: mid ++ rj :: post)
    (hi : ri.action = A) (_hj : rj.action = A)
    (hmi : check_conditions gm (compileRule ri) A (normalize_path ctx.target) ctx
      = .matched)
    (_hmj : check_conditions gm (compileRule rj) A (normalize_path ctx.target) ctx
      = .matched)
    (hpre : evalRules gm p.law A (normalize_path ctx.target) ctx (pre.map compileRule)
      = none) :
    evaluate gm (PolicyEngine.new p) A ctx = rule_to_decision p.law ri := by
  simp only [evaluate, PolicyEngine.new, hrules, List.map_append, List.map_cons,
    evalRules_append, hpre]
  simp [evalRules, hi, hmi]

/-- C3 witness: `deny write src/secret.rs` before `allow write src/**` —
both match `src/secret.rs`, the earlier deny decides. -/
theorem first_match_wins_witness :
    evaluate globsetMatch
      (PolicyEngine.new
        { law := "test",
          rules := [.deny .write { if_path_matches := ["src/secret.rs"] } none,
                    .allow .write { if_path_matches := ["src/**"] }] })
      .write { target := "src/secret.rs" }
      = .denied "Policy 'test' denies write for paths matching: src/secret.rs"
          (some "deny:write:if_path_matches:src/secret.rs") := by
  have h := first_match_wins globsetMatch
    { law := "test",
      rules := [.deny .write { if_path_matches := ["src/secret.rs"] } none,
                .allow .write { if_path_matches := ["src/**"] }] }
    .write { target := "src/secret.rs" }
    [] [] [] (.deny .write { if_path_matches := ["src/secret.rs"] } none)
    (.allow .write { if_path_matches := ["src/**"] })
    rfl rfl rfl (by decide) (by decide) rfl
  simpa [rule_to_decision, Rule.describe, Action.display] using h

/-! ## Lemmas for the parser validation claim -/

/-- `Except.isOk` on a success. -/
@[simp] theorem isOk_ok {e a : Type} (x : a) : (Except.ok x : Except e a).isOk = true := rfl

/-- `Except.isOk` on an error. -/
@[simp] theorem isOk_error {e a : Type} (x : e) :
    (Except.error x : Except e a).isOk = false := rfl

/-- A `find?` for a failing element comes up empty exactly when every
element passes. -/
theorem find_fail_isNone_eq_all (l : List String) (p : String → Bool) :
    (l.find? (fun x => !p x)).isNone = l.all p := by
  cases hf : l.find? (fun x => !p x) with
  | some x =>
    have hx := List.find?_some hf
    have hmem := List.mem_of_find?_eq_some hf
    simp only [Option.isNone_some]
    symm
    rw [Bool.eq_false_iff, Ne, List.all_eq_true]
    intro hall
    have := hall x hmem
    rw [this] at hx
    simp at hx
  | none =>
    simp only [Option.isNone_none]
    symm
    rw [List.all_eq_true]
    intro x hx
    have := List.find?_eq_none.mp hf x hx
    simpa using this

/-- The per-action validation succeeds exactly on the specification's
condition table, independently of the reported index. -/
theorem validate_isOk (a : Action) (c : Conditions) (i : Nat) :
    (validate_conditions_for_action a c i).isOk = specCondsOk a c := by
  have h1 := find_fail_isNone_eq_all c.if_path_matches globNewOk
  have h2 := find_fail_isNone_eq_all c.unless_path (fun p =>
    !((rContainsChar p '*' || rContainsChar p '?' || rContainsChar p '[')
      && !globNewOk p))
  have hglob : (match c.if_path_matches.find? (fun p => !globNewOk p) with
      | some pattern =>
        (Except.error ("Rule " ++ toString i ++ ": invalid glob pattern '"
          ++ pattern ++ "'") : Except String Unit)
      | none =>
        match c.unless_path.find? (fun p =>
            (rContainsChar p '*' || rContainsChar p '?' || rContainsChar p '[')
              && !globNewOk p) with
        | some pattern =>
          Except.error ("Rule " ++ toString i ++ ": invalid glob pattern '"
            ++ pattern ++ "'")
        | none => Except.ok ()).isOk
      = (c.if_path_matches.all globNewOk
        && c.unless_path.all (fun p =>
          !((rContainsChar p '*' || rContainsChar p '?' || rContainsChar p '[')
            && !globNewOk p))) := by
    cases hf : c.if_path_matches.find? (fun p => !globNewOk p) with
    | some x =>
      rw [hf] at h1
      simp only [Option.isNone_some] at h1
      rw [← h1]
      rfl
    | none =>
      rw [hf] at h1
      simp only [Option.isNone_none] at h1
      have : c.unless_path.find? (fun p =>
          (rContainsChar p '*' || rContainsChar p '?' || rContainsChar p '[')
            && !globNewOk p)
          = c.unless_path.find? (fun p =>
            !(!((rContainsChar p '*' || rContainsChar p '?' || rContainsChar p '[')
              && !globNewOk p))) := by
        simp
      cases hg : c.unless_path.find? (fun p =>
          (rContainsChar p '*' || rContainsChar p '?' || rContainsChar p '[')
            && !globNewOk p) with
      | some x =>
        rw [← this, hg] at h2
        simp only [Option.isNone_some] at h2
        rw [← h1, ← h2]
        rfl
      | none =>
        rw [← this, hg] at h2
        simp only [Option.isNone_none] at h2
        rw [← h1, ← h2]
        rfl
  cases a with
  | runCmd =>
    by_cases h : !c.if_path_matches.isEmpty || !c.unless_path.isEmpty
    · have hspec : (c.if_path_matches.isEmpty && c.unless_path.isEmpty) = false := by
        rcases Bool.or_eq_true_iff.mp h with h' | h' <;> simp_all
      simp [validate_conditions_for_action, specCondsOk, h, hspec, Except.isOk,
        Except.toBool]
    · have h' := h
      simp only [Bool.or_eq_true, not_or, Bool.not_eq_true, Bool.not_eq_false] at h'
      have e1 : c.if_path_matches.isEmpty = true := by simpa using h'.1
      have e2 : c.unless_path.isEmpty = true := by simpa using h'.2
      simp only [validate_conditions_for_action, h, Bool.false_eq_true, if_false,
        specCondsOk]
      rw [hglob]
      simp [e1, e2]
  | network =>
    by_cases h : !c.if_path_matches.isEmpty || !c.unless_path.isEmpty
    · have hspec : (c.if_path_matches.isEmpty && c.unless_path.isEmpty) = false := by
        rcases Bool.or_eq_true_iff.mp h with h' | h' <;> simp_all
      simp [validate_conditions_for_action, specCondsOk, h, hspec, Except.isOk,
        Except.toBool]
    · have h' := h
      simp only [Bool.or_eq_true, not_or, Bool.not_eq_true, Bool.not_eq_false] at h'
      have e1 : c.if_path_matches.isEmpty = true := by simpa using h'.1
      have e2 : c.unless_path.isEmpty = true := by simpa using h'.2
      simp only [validate_conditions_for_action, h, Bool.false_eq_true, if_false,
        specCondsOk]
      rw [hglob]
      simp [e1, e2]
  | gitPush =>
    by_cases h : !c.if_matches.isEmpty
    · have hm : c.if_matches.isEmpty = false := by simpa using h
      simp [validate_conditions_for_action, specCondsOk, h, hm,
        Except.isOk, Except.toBool, List.isEmpty_iff]
    · have h' : c.if_matches.isEmpty = true := by simpa using h
      simp only [validate_conditions_for_action, h, Bool.false_eq_true, if_false,
        specCondsOk]
      rw [hglob]
      simp [h']
  | write =>
    by_cases h : !c.unless_domain.isEmpty
    · have hm : c.unless_domain.isEmpty = false := by simpa using h
      simp [validate_conditions_for_action, specCondsOk, h, hm,
        Except.isOk, Except.toBool, List.isEmpty_iff]
    · have h' : c.unless_domain.isEmpty = true := by simpa using h
      simp only [validate_conditions_for_action, h, Bool.false_eq_true, if_false,
        specCondsOk]
      rw [hglob]
      simp [h']
  | delete =>
    by_cases h : !c.unless_domain.isEmpty
    · have hm : c.unless_domain.isEmpty = false := by simpa using h
      simp [validate_conditions_for_action, specCondsOk, h, hm,
        Except.isOk, Except.toBool, List.isEmpty_iff]
    · have h' : c.unless_domain.isEmpty = true := by simpa using h
      simp only [validate_conditions_for_action, h, Bool.false_eq_true, if_false,
        specCondsOk]
      rw [hglob]
      simp [h']

/-- A raw rule converts successfully exactly when it satisfies the
specification's well-formedness conditions. -/
theorem convert_rule_isOk (raw : RawRule) (i : Nat) :
    (convert_rule raw i).isOk = specRuleOk raw := by
  cases hd : raw.deny with
  | some s =>
    cases ha : raw.allow with
    | some s2 =>
      cases hr : raw.require_approval <;>
        simp [convert_rule, specRuleOk, hd, ha, hr, Except.isOk, Except.toBool]
    | none =>
      cases hr : raw.require_approval with
      | some s3 =>
        simp [convert_rule, specRuleOk, hd, ha, hr, Except.isOk, Except.toBool]
      | none =>
        cases hl : Action.from_str_loose s with
        | none =>
          simp [convert_rule, specRuleOk, RawRule.verdictStr, hd, ha, hr, hl,
            Except.isOk, Except.toBool]
        | some act =>
          have hv := validate_isOk act raw.conditionsOf i
          cases hvv : validate_conditions_for_action act raw.conditionsOf i with
          | error e =>
            rw [hvv] at hv
            simp only [Except.isOk, Except.toBool] at hv
            simp [convert_rule, specRuleOk, RawRule.verdictStr, hd, ha, hr, hl, hvv,
              Except.isOk, Except.toBool, ← hv]
          | ok u =>
            rw [hvv] at hv
            simp only [Except.isOk, Except.toBool] at hv
            simp [convert_rule, specRuleOk, RawRule.verdictStr, hd, ha, hr, hl, hvv,
              Except.isOk, Except.toBool, ← hv]
  | none =>
    cases ha : raw.allow with
    | some s =>
      cases hr : raw.require_approval with
      | some s3 =>
        simp [convert_rule, specRuleOk, hd, ha, hr, Except.isOk, Except.toBool]
      | none =>
        cases hl : Action.from_str_loose s with
        | none =>
          simp [convert_rule, specRuleOk, RawRule.verdictStr, hd, ha, hr, hl,
            Except.isOk, Except.toBool]
        | some act =>
          have hv := validate_isOk act raw.conditionsOf i
          cases hvv : validate_conditions_for_action act raw.conditionsOf i with
          | error e =>
            rw [hvv] at hv
            simp only [Except.isOk, Except.toBool] at hv
            simp [convert_rule, specRuleOk, RawRule.verdictStr, hd, ha, hr, hl, hvv,
              Except.isOk, Except.toBool, ← hv]
          | ok u =>
            rw [hvv] at hv
            simp only [Except.isOk, Except.toBool] at hv
            simp [convert_rule, specRuleOk, RawRule.verdictStr, hd, ha, hr, hl, hvv,
              Except.isOk, Except.toBool, ← hv]
    | none =>
      cases hr : raw.require_approval with
      | none =>
        simp [convert_rule, specRuleOk, RawRule.verdictStr, hd, ha, hr,
          Except.isOk, Except.toBool]
      | some s =>
        cases hl : Action.from_str_loose s with
        | none =>
          simp [convert_rule, specRuleOk, RawRule.verdictStr, hd, ha, hr, hl,
            Except.isOk, Except.toBool]
        | some act =>
          have hv := validate_isOk act raw.conditionsOf i
          cases hvv : validate_conditions_for_action act raw.conditionsOf i with
          | error e =>
            rw [hvv] at hv
            simp only [Except.isOk, Except.toBool] at hv
            simp [convert_rule, specRuleOk, RawRule.verdictStr, hd, ha, hr, hl, hvv,
              Except.isOk, Except.toBool, ← hv]
          | ok u =>
            rw [hvv] at hv
            simp only [Except.isOk, Except.toBool] at hv
            simp [convert_rule, specRuleOk, RawRule.verdictStr, hd, ha, hr, hl, hvv,
              Except.isOk, Except.toBool, ← hv]

/-- The conversion loop succeeds exactly when every raw rule is well
formed, and on success it preserves the rule count. -/
theorem convert_rules_spec (rs : List RawRule) : ∀ i,
    (convert_rules i rs).isOk = rs.all specRuleOk
    ∧ (∀ out, convert_rules i rs = .ok out → out.length = rs.length) := by
  induction rs with
  | nil =>
    intro i
    refine ⟨by simp [convert_rules], ?_⟩
    intro out hout
    simp only [convert_rules] at hout
    cases hout
    rfl
  | cons r rest ih =>
    intro i
    have hr := convert_rule_isOk r i
    refine ⟨?_, ?_⟩
    · cases hc : convert_rule r i with
      | error e =>
        rw [hc] at hr
        simp only [Except.isOk, Except.toBool] at hr
        simp [convert_rules, hc, ← hr]
      | ok rule =>
        rw [hc] at hr
        simp only [Except.isOk, Except.toBool] at hr
        have h1 := (ih (i + 1)).1
        cases hcs : convert_rules (i + 1) rest with
        | error e =>
          rw [hcs] at h1
          simp only [Except.isOk, Except.toBool] at h1
          simp [convert_rules, hc, hcs, ← hr, ← h1]
        | ok out =>
          rw [hcs] at h1
          simp only [Except.isOk, Except.toBool] at h1
          simp [convert_rules, hc, hcs, ← hr, ← h1]
    · intro out hout
      cases hc : convert_rule r i with
      | error e => simp [convert_rules, hc] at hout
      | ok rule =>
        cases hcs : convert_rules (i + 1) rest with
        | error e => simp [convert_rules, hc, hcs] at hout
        | ok out2 =>
          simp only [convert_rules, hc, hcs] at hout
          cases hout
          simp [(ih (i + 1)).2 out2 hcs]

/-- C7: loading the (deserialised) policy document succeeds exactly when
the law name is not whitespace-only, the rule list is non-empty, and
every rule is well formed in the specification's sense (`specRuleOk`):
exactly one verdict key, a known action name, no
`if_path_matches`/`unless_path` on `run_cmd` or `network` rules, no
`if_matches` on `git_push` rules, no `unless_domain` on `write` or
`delete` rules, and no malformed glob in `if_path_matches` or in a
meta-character-containing `unless_path` entry. -/
theorem parse_validation_spec (raw : RawPolicy) :
    (parse_policy_raw raw).isOk
      = (!(rTrim raw.law).toList.isEmpty && !raw.rules.isEmpty
          && raw.rules.all specRuleOk) := by
  cases hempty : (rTrim raw.law).toList.isEmpty with
  | true =>
    have hd : (rTrim raw.law).data = [] := by
      simpa [String.toList, List.isEmpty_iff] using hempty
    simp [parse_policy_raw, String.toList, hd, Except.isOk, Except.toBool]
  | false =>
    have hd : ¬ (rTrim raw.law).data = [] := by
      simpa [String.toList, List.isEmpty_iff] using hempty
    have h1 := (convert_rules_spec raw.rules 0).1
    cases hc : convert_rules 0 raw.rules with
    | error e =>
      rw [hc] at h1
      simp only [Except.isOk, Except.toBool] at h1
      simp [parse_policy_raw, String.toList, hd, hc, Except.isOk, Except.toBool,
        hempty, ← h1]
    | ok out =>
      rw [hc] at h1
      simp only [Except.isOk, Except.toBool] at h1
      have hlen := (convert_rules_spec raw.rules 0).2 out hc
      by_cases he : out = []
      · have hrules : raw.rules = [] := by
          subst he
          exact List.length_eq_zero.mp hlen.symm
        simp [parse_policy_raw, String.toList, hd, hrules, convert_rules]
      · have hrules : raw.rules ≠ [] := by
          intro h0
          rw [h0] at hlen
          exact he (List.length_eq_zero.mp hlen)
        simp [parse_policy_raw, String.toList, hd, hc, he, hrules, hempty,
          Except.isOk, Except.toBool, ← h1]

/-- C4 counterexample: for the `deny delete unless_path /tmp` rule and
target `/tmpfoo` (of which the literal entry `/tmp` is a string prefix
but which neither expanded glob matches), the condition check yields
`Matched` — not `ExceptionMatched` — and `evaluate` denies instead of
returning the implicit allow. -/
theorem unless_path_no_separate_string_check :
    check_conditions globsetMatch
        (compileRule (.deny .delete { unless_path := ["/tmp"] } none))
        .delete "/tmpfoo" { target := "/tmpfoo" } = .matched
    ∧ check_conditions globsetMatch
        (compileRule (.deny .delete { unless_path := ["/tmp"] } none))
        .delete "/tmpfoo" { target := "/tmpfoo" } ≠ .exceptionMatched
    ∧ rStartsWith "/tmpfoo" "/tmp" = true
    ∧ globsetMatch "/tmp" "/tmpfoo" = false
    ∧ globsetMatch "/tmp/**" "/tmpfoo" = false
    ∧ evaluate globsetMatch
        (PolicyEngine.new
          { law := "test", rules := [.deny .delete { unless_path := ["/tmp"] } none] })
        .delete { target := "/tmpfoo" }
      = .denied "Policy 'test' denies delete (no exceptions matched)"
          (some "deny:delete:unless_path:/tmp") := by
  refine ⟨by decide, by decide, by decide, by decide, by decide, by decide⟩

/-- C4 amended: for a rule with non-empty `unless_path` the compiled
unless-path matcher always exists, so the prefix-string fallback in
`check_conditions` (guarded by the matcher's absence) is unreachable;
when `unless_domain` is empty, the check yields `ExceptionMatched`
exactly when the expanded glob matcher matches the target. -/
theorem unless_exception_iff_expanded_glob (gm : String → String → Bool) (r : Rule)
    (A : Action) (t : String) (ctx : ActionContext)
    (hup : r.conditions.unless_path ≠ [])
    (hud : r.conditions.unless_domain = []) :
    (compileRule r).unless_path_matcher
        = some (expandUnlessPath r.conditions.unless_path)
    ∧ (check_conditions gm (compileRule r) A t ctx = .exceptionMatched ↔
        matcherMatches gm (expandUnlessPath r.conditions.unless_path) t = true) := by
  have hmatcher : (compileRule r).unless_path_matcher
      = some (expandUnlessPath r.conditions.unless_path) := by
    simp [compileRule, hup]
  refine ⟨hmatcher, ?_⟩
  have hne : r.conditions.is_empty = false := by
    simp [Conditions.is_empty, List.isEmpty_iff, hup]
  constructor
  · intro h
    by_contra hm
    have hm' : matcherMatches gm (expandUnlessPath r.conditions.unless_path) t = false :=
      Bool.eq_false_iff.mpr hm
    simp only [check_conditions, hne, Bool.false_eq_true, if_false, hmatcher, hm',
      hud] at h
    simp at h
    split at h <;> try simp_all
    split at h <;> try simp_all
    split at h <;> try simp_all
    split at h <;> simp_all
  · intro hm
    simp [check_conditions, hne, hmatcher, hm]

/-- C4 witness: with the concrete glob model, target `/tmp/foo.txt`
matches the expanded pattern pair of entry `/tmp`, so the check yields
`ExceptionMatched`. -/
theorem unless_exception_iff_expanded_glob_witness :
    check_conditions globsetMatch
      (compileRule (.deny .delete { unless_path := ["/tmp"] } none))
      .delete "/tmp/foo.txt" { target := "/tmp/foo.txt" } = .exceptionMatched := by
  exact (unless_exception_iff_expanded_glob globsetMatch
    (.deny .delete { unless_path := ["/tmp"] } none)
    .delete "/tmp/foo.txt" { target := "/tmp/foo.txt" }
    (by decide) rfl).2.mpr (by decide)

/-- A block of queries that all evaluate to `Allowed` is walked through
without changing the outcome. -/
theorem hookWalk_skip_allowed (gm : String → String → Bool) (eng : PolicyEngine)
    (promptFn : Action × ActionContext → Bool) (pre qs : List (Action × ActionContext))
    (h : ∀ q ∈ pre, ∃ mr, evaluate gm eng q.1 q.2 = .allowed mr) :
    hookWalk gm eng promptFn (pre ++ qs) false = hookWalk gm eng promptFn qs false := by
  induction pre with
  | nil => rfl
  | cons q rest ih =>
    obtain ⟨mr, hmr⟩ := h q (List.mem_cons_self _ _)
    simp only [List.cons_append, hookWalk, hmr]
    exact ih (fun x hx => h x (List.mem_cons_of_mem _ hx))

/-- C5: the hook adapter's walk over its ordered query list — a `Denied`
verdict exits 2; a `RequiresApproval` verdict with no available native
prompt (non-macOS) exits 2; on human approval the latch skips every
remaining query and the walk exits 0; when every evaluated query is
allowed the walk exits 0. -/
theorem hook_walk_exit_codes (gm : String → String → Bool) (eng : PolicyEngine) :
    (∀ promptFn qs, (∀ q ∈ qs, ∃ mr, evaluate gm eng q.1 q.2 = .allowed mr) →
      hookWalk gm eng promptFn qs false = 0)
    ∧ (∀ promptFn pre q post, (∀ x ∈ pre, ∃ mr, evaluate gm eng x.1 x.2 = .allowed mr) →
      (∃ rs mr, evaluate gm eng q.1 q.2 = .denied rs mr) →
      hookWalk gm eng promptFn (pre ++ q :: post) false = 2)
    ∧ (∀ (dialog : Bool) pre q post,
      (∀ x ∈ pre, ∃ mr, evaluate gm eng x.1 x.2 = .allowed mr) →
      (∃ rs mr, evaluate gm eng q.1 q.2 = .requiresApproval rs mr) →
      hookWalk gm eng (fun _ => prompt_native_approval false dialog)
        (pre ++ q :: post) false = 2)
    ∧ (∀ promptFn pre q post,
      (∀ x ∈ pre, ∃ mr, evaluate gm eng x.1 x.2 = .allowed mr) →
      (∃ rs mr, evaluate gm eng q.1 q.2 = .requiresApproval rs mr) →
      promptFn q = true →
      hookWalk gm eng promptFn (pre ++ q :: post) false = 0) := by
  refine ⟨?_, ?_, ?_, ?_⟩
  · intro promptFn qs h
    induction qs with
    | nil => rfl
    | cons q rest ih =>
      obtain ⟨mr, hmr⟩ := h q (List.mem_cons_self _ _)
      simp only [hookWalk, hmr]
      exact ih (fun x hx => h x (List.mem_cons_of_mem _ hx))
  · intro promptFn pre q post hpre ⟨rs, mr, hq⟩
    rw [hookWalk_skip_allowed gm eng promptFn pre _ hpre]
    simp [hookWalk, hq]
  · intro dialog pre q post hpre ⟨rs, mr, hq⟩
    rw [hookWalk_skip_allowed gm eng _ pre _ hpre]
    simp [hookWalk, hq, prompt_native_approval]
  · intro promptFn pre q post hpre ⟨rs, mr, hq⟩ hprompt
    rw [hookWalk_skip_allowed gm eng promptFn pre _ hpre]
    cases post with
    | nil => simp [hookWalk, hq, hprompt]
    | cons p rest => simp [hookWalk, hq, hprompt]

/-- C5 witness: with a policy that denies delete and requires approval
for git push — an approved git-push query latches past a following
denied delete query (exit 0); the same walk under the non-macOS prompt
exits 2; a denied query alone exits 2; an allowed-only walk exits 0. -/
theorem hook_walk_exit_codes_witness :
    hookWalk globsetMatch
        (PolicyEngine.new
          { law := "test",
            rules := [.deny .delete {} none, .requireApproval .gitPush {} none] })
        (fun _ => true)
        [(.gitPush, { target := "main" }), (.delete, { target := "/x" })] false = 0
    ∧ hookWalk globsetMatch
        (PolicyEngine.new
          { law := "test",
            rules := [.deny .delete {} none, .requireApproval .gitPush {} none] })
        (fun _ => prompt_native_approval false true)
        [(.gitPush, { target := "main" })] false = 2
    ∧ hookWalk globsetMatch
        (PolicyEngine.new
          { law := "test",
            rules := [.deny .delete {} none, .requireApproval .gitPush {} none] })
        (fun _ => true) [(.delete, { target := "/x" })] false = 2
    ∧ hookWalk globsetMatch
        (PolicyEngine.new
          { law := "test",
            rules := [.deny .delete {} none, .requireApproval .gitPush {} none] })
        (fun _ => true) [(.write, { target := "a.txt" })] false = 0 := by
  have h := hook_walk_exit_codes globsetMatch
    (PolicyEngine.new
      { law := "test",
        rules := [.deny .delete {} none, .requireApproval .gitPush {} none] })
  refine ⟨?_, ?_, ?_, ?_⟩
  · exact h.2.2.2 (fun _ => true) [] (.gitPush, { target := "main" })
      [(.delete, { target := "/x" })] (by simp)
      ⟨"Policy 'test' requires approval for git_push",
       some "require_approval:git_push", by decide⟩ rfl
  · exact h.2.2.1 true [] (.gitPush, { target := "main" }) [] (by simp)
      ⟨"Policy 'test' requires approval for git_push",
       some "require_approval:git_push", by decide⟩
  · exact h.2.1 (fun _ => true) [] (.delete, { target := "/x" }) [] (by simp)
      ⟨"Policy 'test' denies delete (no exceptions matched)",
       some "deny:delete", by decide⟩
  · exact h.1 (fun _ => true) [(.write, { target := "a.txt" })]
      (by intro q hq; simp at hq; subst hq; exact ⟨none, by decide⟩)

/-- C6 counterexample: the broker approves but the handler fails — the
audit record's final decision is the original `RequiresApproval`, not
`Allowed{matched_rule="approved by human"}`, refuting the claim's
unconditional description of the broker-approval case. -/
theorem approval_exec_error_counterexample :
    (process_decision "r1" (.requiresApproval "needs approval" none)
        (.error "disk full") (.ok { approved := true, approved_by := none })).2.1
      ≠ .allowed (some "approved by human")
    ∧ process_decision "r1" (.requiresApproval "needs approval" none)
        (.error "disk full") (.ok { approved := true, approved_by := none })
      = (.internal_error "r1" "disk full",
         .requiresApproval "needs approval" none, none) := by
  exact ⟨by decide, by decide⟩

/-- C6 amended: the `RequiresApproval` branch of `process_request` — on
broker approval with a successful handler the response is allowed and
the audit decision becomes `Allowed{"approved by human"}` with the
broker identity (or "terminal"); on broker approval with a failing
handler the response is an internal error and the audit decision stays
the original `RequiresApproval` with no approver; on human denial the
response and audit decision are the human-review denial; on broker
error both carry the `Approval flow error: ` reason. -/
theorem process_requires_approval_cases (request_id reason : String)
    (mr : Option String) (resp : ApprovalResponse) (exec : Except String String) :
    (∀ out, resp.approved = true → exec = .ok out →
      process_decision request_id (.requiresApproval reason mr) exec (.ok resp)
        = (.mkAllowed request_id out, .allowed (some "approved by human"),
           some (resp.approved_by.getD "terminal")))
    ∧ (∀ e, resp.approved = true → exec = .error e →
      process_decision request_id (.requiresApproval reason mr) exec (.ok resp)
        = (.internal_error request_id e, .requiresApproval reason mr, none))
    ∧ (resp.approved = false →
      process_decision request_id (.requiresApproval reason mr) exec (.ok resp)
        = (.mkDenied request_id "Denied by human reviewer",
           .denied "Denied by human reviewer" (some "human review"), none))
    ∧ (∀ e,
      process_decision request_id (.requiresApproval reason mr) exec (.error e)
        = (.mkDenied request_id ("Approval flow error: " ++ e),
           .denied ("Approval flow error: " ++ e) none, none)) := by
  refine ⟨?_, ?_, ?_, ?_⟩
  · intro out hap hex; subst hex; simp [process_decision, hap]
  · intro e hap hex; subst hex; simp [process_decision, hap]
  · intro hap; cases exec <;> simp [process_decision, hap]
  · intro e; cases exec <;> simp [process_decision]

/-- C6 witness: the three broker outcomes at concrete inputs. -/
theorem process_requires_approval_cases_witness :
    process_decision "r1" (.requiresApproval "why" none) (.ok "done")
        (.ok { approved := true, approved_by := some "alice" })
      = (.mkAllowed "r1" "done", .allowed (some "approved by human"), some "alice")
    ∧ process_decision "r1" (.requiresApproval "why" none) (.ok "done")
        (.ok { approved := false, approved_by := none })
      = (.mkDenied "r1" "Denied by human reviewer",
         .denied "Denied by human reviewer" (some "human review"), none)
    ∧ process_decision "r1" (.requiresApproval "why" none) (.ok "done")
        (.error "broker down")
      = (.mkDenied "r1" "Approval flow error: broker down",
         .denied "Approval flow error: broker down" none, none) := by
  have h := process_requires_approval_cases "r1" "why" none
  refine ⟨?_, ?_, ?_⟩
  · exact (h { approved := true, approved_by := some "alice" } (.ok "done")).1
      "done" rfl rfl
  · exact (h { approved := false, approved_by := none } (.ok "done")).2.2.1 rfl
  · exact (h { approved := true, approved_by := none } (.ok "done")).2.2.2 "broker down"

/-- C8 counterexample: the one-rule policy `deny delete` is loadable
(the parser produces exactly it from its document form), yet re-parsing
its serialised form fails — the round-trip does not yield the policy
back. -/
theorem roundtrip_counterexample :
    parse_policy_raw { law := "test", rules := [{ deny := some "delete" }] }
      = .ok { law := "test", rules := [.deny .delete {} none] }
    ∧ (parse_policy_raw (rawPolicyOfSerialized
        { law := "test", rules := [.deny .delete {} none] })).isOk = false := by
  exact ⟨rfl, by decide⟩

/-- C8 amended: serialising a `Policy` uses the internally tagged
`type`/`action`/`conditions` key set, which the parser does not
recognise as any verdict key; re-parsing the serialised form of any
policy with at least one rule therefore fails (with the
missing-verdict-key error on rule 0), so parse → serialise → parse never
reproduces a loadable policy. -/
theorem serialised_policy_reparse_fails (p : Policy) (h : p.rules ≠ []) :
    (parse_policy_raw (rawPolicyOfSerialized p)).isOk = false := by
  obtain ⟨r, rest, hrules⟩ : ∃ r rest, p.rules = r :: rest := by
    cases hp : p.rules with
    | nil => exact absurd hp h
    | cons r rest => exact ⟨r, rest, rfl⟩
  by_cases hl : (rTrim p.law).data = []
  · simp [parse_policy_raw, rawPolicyOfSerialized, String.toList, hl]
  · have hconv : convert_rule (rawRuleOfSerialized r) 0
        = .error "Rule 0 must specify one of: deny, allow, or require_approval" := by
      rfl
    simp [parse_policy_raw, rawPolicyOfSerialized, String.toList, hl, hrules,
      convert_rules, hconv]

/-- C8 amended witness: the reparse failure at the concrete one-rule
policy. -/
theorem serialised_policy_reparse_fails_witness :
    (parse_policy_raw (rawPolicyOfSerialized
      { law := "safe-dev-v1",
        rules := [.requireApproval .gitPush {} (some "really push?")] })).isOk
      = false :=
  serialised_policy_reparse_fails
    { law := "safe-dev-v1",
      rules := [.requireApproval .gitPush {} (some "really push?")] }
    (by decide)

/-- C9: `truncate_preview` byte-slices at position 500; on a payload
whose 500th byte falls inside a multi-byte UTF-8 character the slice is
off a character boundary and the Rust code panics (modelled as `none`) —
the preview is not total.  The failing payload here is 499 `a`s followed
by `é` (2 bytes) and `b`: 502 bytes long, with byte 500 inside the
`é`. -/
theorem truncate_preview_panics_on_multibyte_boundary :
    truncate_preview (String.mk (List.replicate 499 'a' ++ ['é', 'b'])) 500 = none
    ∧ rustByteLen (String.mk (List.replicate 499 'a' ++ ['é', 'b'])) = 502
    ∧ truncate_preview (String.mk (List.replicate 502 'a')) 500
      = some (String.mk (List.replicate 500 'a') ++ "... (502 chars total)") := by
  refine ⟨by decide, by decide, by decide⟩

/-- C10: a `write`/`delete`/`network` rule may carry `if_matches` — the
per-action validation ignores the field for every action but `git_push`
(which rejects it) — and during evaluation the `if_matches` check fires
only for `run_cmd` queries, so for a rule whose action is not `run_cmd`
the condition check coincides with that of the rule with `if_matches`
removed. -/
theorem if_matches_inert_for_non_runcmd (gm : String → String → Bool)
    (target : String) (ctx : ActionContext) (r : Rule) (i : Nat)
    (c : Conditions) (x : List String) :
    (r.action ≠ .runCmd →
      check_conditions gm (compileRule r) r.action target ctx
        = check_conditions gm (compileRule (eraseIfMatches r)) r.action target ctx)
    ∧ (∀ a : Action, a ≠ .gitPush →
      validate_conditions_for_action a { c with if_matches := x } i
        = validate_conditions_for_action a { c with if_matches := [] } i)
    ∧ (x ≠ [] →
      (validate_conditions_for_action .gitPush { c with if_matches := x } i).isOk
        = false) := by
  refine ⟨?_, ?_, ?_⟩
  · intro hA
    cases r with
    | deny a cc rs =>
      obtain ⟨f1, f2, f3, f4, f5⟩ := cc
      simp only [Rule.action] at hA
      have hrc : (a == Action.runCmd) = false := by simpa using hA
      by_cases him : f3 = []
      · subst him; rfl
      · have hf3 : ([] : List String) ≠ f3 := fun h => him h.symm
        by_cases hre : (({ if_path_matches := f1, unless_path := f2, if_matches := [], max_diff_lines := f4, unless_domain := f5 } : Conditions)).is_empty
        · have hp : ((f1 = [] ∧ f2 = []) ∧ f4 = none) ∧ f5 = [] := by
            simpa [Conditions.is_empty, List.isEmpty_iff] using hre
          obtain ⟨⟨⟨rfl, rfl⟩, rfl⟩, rfl⟩ := hp
          simp [check_conditions, compileRule, eraseIfMatches, Rule.conditions,
            Rule.action, Conditions.is_empty, List.isEmpty_iff, him, hrc, hA]
        · have hre' : (({ if_path_matches := f1, unless_path := f2, if_matches := [], max_diff_lines := f4, unless_domain := f5 } : Conditions)).is_empty = false := by
            simpa using hre
          have hle : (({ if_path_matches := f1, unless_path := f2, if_matches := f3, max_diff_lines := f4, unless_domain := f5 } : Conditions)).is_empty = false := by
            simp [Conditions.is_empty, List.isEmpty_iff, him]
          simp only [check_conditions, compileRule, eraseIfMatches, Rule.conditions,
            Rule.action, hre', hle, Bool.false_eq_true, if_false, hrc]
          simp [him, hA]
    | allow a cc =>
      obtain ⟨f1, f2, f3, f4, f5⟩ := cc
      simp only [Rule.action] at hA
      have hrc : (a == Action.runCmd) = false := by simpa using hA
      by_cases him : f3 = []
      · subst him; rfl
      · by_cases hre : (({ if_path_matches := f1, unless_path := f2, if_matches := [], max_diff_lines := f4, unless_domain := f5 } : Conditions)).is_empty
        · have hp : ((f1 = [] ∧ f2 = []) ∧ f4 = none) ∧ f5 = [] := by
            simpa [Conditions.is_empty, List.isEmpty_iff] using hre
          obtain ⟨⟨⟨rfl, rfl⟩, rfl⟩, rfl⟩ := hp
          simp [check_conditions, compileRule, eraseIfMatches, Rule.conditions,
            Rule.action, Conditions.is_empty, List.isEmpty_iff, him, hrc, hA]
        · have hre' : (({ if_path_matches := f1, unless_path := f2, if_matches := [], max_diff_lines := f4, unless_domain := f5 } : Conditions)).is_empty = false := by
            simpa using hre
          have hle : (({ if_path_matches := f1, unless_path := f2, if_matches := f3, max_diff_lines := f4, unless_domain := f5 } : Conditions)).is_empty = false := by
            simp [Conditions.is_empty, List.isEmpty_iff, him]
          simp only [check_conditions, compileRule, eraseIfMatches, Rule.conditions,
            Rule.action, hre', hle, Bool.false_eq_true, if_false, hrc]
          simp [him, hA]
    | requireApproval a cc p =>
      obtain ⟨f1, f2, f3, f4, f5⟩ := cc
      simp only [Rule.action] at hA
      have hrc : (a == Action.runCmd) = false := by simpa using hA
      by_cases him : f3 = []
      · subst him; rfl
      · by_cases hre : (({ if_path_matches := f1, unless_path := f2, if_matches := [], max_diff_lines := f4, unless_domain := f5 } : Conditions)).is_empty
        · have hp : ((f1 = [] ∧ f2 = []) ∧ f4 = none) ∧ f5 = [] := by
            simpa [Conditions.is_empty, List.isEmpty_iff] using hre
          obtain ⟨⟨⟨rfl, rfl⟩, rfl⟩, rfl⟩ := hp
          simp [check_conditions, compileRule, eraseIfMatches, Rule.conditions,
            Rule.action, Conditions.is_empty, List.isEmpty_iff, him, hrc, hA]
        · have hre' : (({ if_path_matches := f1, unless_path := f2, if_matches := [], max_diff_lines := f4, unless_domain := f5 } : Conditions)).is_empty = false := by
            simpa using hre
          have hle : (({ if_path_matches := f1, unless_path := f2, if_matches := f3, max_diff_lines := f4, unless_domain := f5 } : Conditions)).is_empty = false := by
            simp [Conditions.is_empty, List.isEmpty_iff, him]
          simp only [check_conditions, compileRule, eraseIfMatches, Rule.conditions,
            Rule.action, hre', hle, Bool.false_eq_true, if_false, hrc]
          simp [him, hA]
  · intro a ha
    cases a <;> simp_all [validate_conditions_for_action]
  · intro hx
    simp [validate_conditions_for_action, List.isEmpty_iff, hx]

/-- C10 witness: a write rule carrying `if_matches` validates and, for a
write query, checks identically to the rule without it. -/
theorem if_matches_inert_for_non_runcmd_witness :
    check_conditions globsetMatch
        (compileRule (.allow .write { if_matches := ["rm *"] }))
        .write "a.txt" { target := "a.txt" }
      = check_conditions globsetMatch
          (compileRule (eraseIfMatches (.allow .write { if_matches := ["rm *"] })))
          .write "a.txt" { target := "a.txt" }
    ∧ validate_conditions_for_action .write
        { if_matches := ["rm *"] } 0
      = validate_conditions_for_action .write { if_matches := [] } 0
    ∧ (validate_conditions_for_action .gitPush { if_matches := ["rm *"] } 0).isOk
      = false := by
  have h := if_matches_inert_for_non_runcmd globsetMatch "a.txt" { target := "a.txt" }
    (.allow .write { if_matches := ["rm *"] }) 0 {} ["rm *"]
  exact ⟨h.1 (by decide), h.2.1 .write (by decide), h.2.2 (by decide)⟩

end Lawctl
